import Mathlib

/-!
# Verification of the snuba query-translation / replacement-consistency core

Shallow embedding of the repository's core data model and operations:

* the logical expression model and the strict snuba → clickhouse translator
  (the translator itself and the matcher/mapper base classes live outside the
  provided sources, so they are modelled from the specification; the concrete
  mappers are embedded from `snuba/datasets/entities/discover.py`);
* the Redis-backed replacement-consistency state store and the replacer
  worker (`snuba/replacer.py`);
* the sampling-rate query processor
  (`snuba/query/processors/sampling_rate.py`);
* the outcomes storage selector (`snuba/datasets/outcomes.py`);
* the discover storage selector, modelled from the specification and checked
  against the scenarios of `tests/datasets/test_discover.py`.
-/

set_option autoImplicit false

namespace Snuba

/-! ## Expression model

Embeds `snuba.query.expressions`: a tagged expression tree, every node
carrying an optional alias.  Literal values in the embedded fragment are
null (`Option.none`), booleans, integers and strings; floats and datetimes
do not occur in any claim.
-/

inductive ScalarValue where
  | int (n : Int)
  | str (s : String)
  | bool (b : Bool)
  deriving DecidableEq, Repr

inductive Expression where
  | column (nodeAlias : Option String) (columnName : String) (tableName : Option String)
  | literal (nodeAlias : Option String) (value : Option ScalarValue)
  | functionCall (nodeAlias : Option String) (functionName : String)
      (parameters : List Expression)
  | curriedFunctionCall (nodeAlias : Option String) (internalFunction : Expression)
      (parameters : List Expression)
  | subscriptableReference (nodeAlias : Option String) (column : Expression)
      (key : Expression)

/-- Python `x or y` on an optional string: `None` and the empty string are
falsy, so both fall through to the default. -/
def pyStrOr (a : Option String) (b : String) : String :=
  match a with
  | none => b
  | some s => if s = "" then b else s

/-- Modelled from the spec: `snuba.util.qualified_column` (not under `src/`)
produces "a table-qualified name": the bare column name when the table alias
is empty, `table.column` otherwise. -/
def qualified_column (columnName : String) (tableAlias : String) : String :=
  if tableAlias = "" then columnName else tableAlias ++ "." ++ columnName

/-! ## Pattern matchers

Modelled from the spec (§4.1), since `snuba/query/matchers.py` is not under
`src/`.  Only the two composite matchers used by the discover mappers are
needed; we embed each composition directly as its success predicate.

`FunctionCallMatch(StringMatch("ifNull"), (LiteralMatch(), LiteralMatch()))`:
matches a function call named `ifNull` with exactly two parameters, each of
which is a literal (any literal value — `LiteralMatch()` carries no value
predicate).
-/

def isLiteralNode : Expression → Bool
  | .literal _ _ => true
  | _ => false

/-- The `function_match` pattern shared by both ifNull-collapse mappers. -/
def ifNullTwoLiteralsMatch : Expression → Bool
  | .functionCall _ name [p1, p2] =>
      name = "ifNull" && isLiteralNode p1 && isLiteralNode p2
  | _ => false

/-- `FunctionCallMatch(Or([StringMatch(f) for f in names]))`: a function call
whose name is one of `names`; parameters are not constrained. -/
def functionNameInSetMatch (names : List String) : Expression → Bool
  | .functionCall _ name _ => names.contains name
  | _ => false

/-! ## Mapper rules

The spec (§9) prescribes a closed set of tagged variants per node kind, each
with one `attempt_map` capability.  The concrete mappers are embedded from
`snuba/datasets/entities/discover.py`; `ColumnToLiteral` is modelled from the
spec since `snuba/clickhouse/translators/snuba/mappers.py` is not under
`src/`.
-/

inductive ColumnMapperDef where
  /-- `DefaultNoneColumnMapper(columns)`: maps each listed column name to a
  NULL literal (discover.py lines 59-81). -/
  | defaultNoneColumn (columns : List String)
  /-- Modelled from the spec: `ColumnToLiteral(from_table_name, from_col_name,
  to_literal_value)` rewrites the named logical column into a fixed literal,
  preserving the node's alias. -/
  | columnToLiteral (fromTableName : Option String) (fromColName : String)
      (toLiteralValue : Option ScalarValue)
  deriving DecidableEq, Repr

inductive FunctionMapperDef where
  /-- `DefaultNoneFunctionMapper(function_names)` (discover.py lines 85-105). -/
  | defaultNoneFunction (functionNames : List String)
  /-- `DefaultIfNullFunctionMapper` (discover.py lines 109-145). -/
  | defaultIfNullFunction
  deriving DecidableEq, Repr

inductive CurriedFunctionMapperDef where
  /-- `DefaultIfNullCurriedFunctionMapper` (discover.py lines 149-194). -/
  | defaultIfNullCurriedFunction
  deriving DecidableEq, Repr

inductive SubscriptMapperDef where
  /-- `DefaultNoneSubscriptMapper(subscript_names)` (discover.py lines 198-216). -/
  | defaultNoneSubscript (subscriptNames : List String)
  deriving DecidableEq, Repr

/-- `DefaultNoneColumnMapper.attempt_map` / `ColumnToLiteral.attempt_map`,
given the column node's fields.  Column mappers do not recurse. -/
def attemptMapColumn (m : ColumnMapperDef) (nodeAlias : Option String)
    (columnName : String) (tableName : Option String) : Option Expression :=
  match m with
  | .defaultNoneColumn columns =>
      if columns.contains columnName then
        some (.literal
          (some (pyStrOr nodeAlias (qualified_column columnName (pyStrOr tableName ""))))
          none)
      else
        none
  | .columnToLiteral fromTableName fromColName toLiteralValue =>
      if columnName = fromColName && tableName == fromTableName then
        some (.literal nodeAlias toLiteralValue)
      else
        none

/-- `snuba.query.dsl.identity` (modelled from the spec §4.2: an
`identity(NULL)` wrapper carrying the call's alias). -/
def identityWrap (e : Expression) (nodeAlias : Option String) : Expression :=
  .functionCall nodeAlias "identity" [e]

/-- One parameter of an ifNull-collapse check is "null": either it matches
`ifNull(<literal>, <literal>)`, or it is a literal and its value is null;
any other expression stops the collapse.  Mirrors the `for param in
parameters` loop shared by both ifNull-collapse mappers. -/
def paramIsNull (p : Expression) : Bool :=
  if ifNullTwoLiteralsMatch p then
    true
  else
    match p with
    | .literal _ value => value == none
    | _ => false

/-- `attempt_map` of a function mapper.  `translatedParameters` is the list
`tuple(p.accept(children_translator) for p in expression.parameters)`: the
strict translator passes itself as `children_translator`, so each entry is
the full translation of the corresponding original parameter. -/
def attemptMapFunction (m : FunctionMapperDef) (nodeAlias : Option String)
    (functionName : String) (parameters : List Expression)
    (translatedParameters : List Expression) : Option Expression :=
  match m with
  | .defaultNoneFunction functionNames =>
      if functionNameInSetMatch functionNames
          (.functionCall nodeAlias functionName parameters) then
        some (identityWrap (.literal none none) nodeAlias)
      else
        none
  | .defaultIfNullFunction =>
      if translatedParameters.all paramIsNull && translatedParameters.length > 0 then
        some (.functionCall nodeAlias "ifNull" [.literal none none, .literal none none])
      else
        none

/-- `attempt_map` of a curried-function mapper.  The translated internal
function has already been checked (asserted) to be a function call, and is
passed destructured. -/
def attemptMapCurried (m : CurriedFunctionMapperDef) (nodeAlias : Option String)
    (_innerAlias : Option String) (innerName : String)
    (innerParameters : List Expression)
    (translatedParameters : List Expression) : Option Expression :=
  match m with
  | .defaultIfNullCurriedFunction =>
      if translatedParameters.all paramIsNull && translatedParameters.length > 0 then
        some (.curriedFunctionCall nodeAlias
          (.functionCall none (innerName ++ "OrNull") innerParameters)
          (translatedParameters.map fun _ => Expression.literal none none))
      else
        none

/-- `attempt_map` of a subscriptable-reference mapper.  The mapper inspects
`expression.column.column_name`; a non-column in that position cannot match. -/
def attemptMapSubscript (m : SubscriptMapperDef) (nodeAlias : Option String)
    (column : Expression) (key : Expression) : Option Expression :=
  match m, column, key with
  | .defaultNoneSubscript subscriptNames, .column _ columnName _, _ =>
      if subscriptNames.contains columnName then
        some (.literal nodeAlias none)
      else
        none
  | .defaultNoneSubscript _, _, _ => none

/-! ## Mapper chains and the strict translator

`TranslationMappers` and its `concat`, and the strict translator
`SnubaClickhouseMappingTranslator`, live outside `src/`; both are modelled
from the spec: four per-node-kind ordered rule lists, `concat` is per-kind
list concatenation (§3), and the translator gives every mapper of the node's
kind a chance in order, structurally reconstructing the node from its
already-translated children when none claims it (§4.2).  The only fatal case
is a curried call whose internal function does not translate to a function
call (§4.2 / §7), modelled as `Option.none`.
-/

structure TranslationMappers where
  columns : List ColumnMapperDef := []
  functions : List FunctionMapperDef := []
  curried_functions : List CurriedFunctionMapperDef := []
  subscriptables : List SubscriptMapperDef := []
  deriving DecidableEq, Repr

def TranslationMappers.concat (a b : TranslationMappers) : TranslationMappers :=
  { columns := a.columns ++ b.columns
    functions := a.functions ++ b.functions
    curried_functions := a.curried_functions ++ b.curried_functions
    subscriptables := a.subscriptables ++ b.subscriptables }

mutual

/-- The strict translator: first mapper of the node's kind that returns a
non-`none` result wins; otherwise the node is structurally reconstructed from
its translated children. -/
def translate (ch : TranslationMappers) : Expression → Option Expression
  | .column nodeAlias columnName tableName =>
      some ((ch.columns.findSome? fun m =>
        attemptMapColumn m nodeAlias columnName tableName).getD
          (.column nodeAlias columnName tableName))
  | .literal nodeAlias value => some (.literal nodeAlias value)
  | .functionCall nodeAlias functionName parameters =>
      match translateList ch parameters with
      | none => none
      | some translatedParameters =>
          some ((ch.functions.findSome? fun m =>
            attemptMapFunction m nodeAlias functionName parameters
              translatedParameters).getD
            (.functionCall nodeAlias functionName translatedParameters))
  | .curriedFunctionCall nodeAlias internalFunction parameters =>
      match translate ch internalFunction with
      | none => none
      | some translatedInner =>
          match translatedInner with
          | .functionCall innerAlias innerName innerParameters =>
              match translateList ch parameters with
              | none => none
              | some translatedParameters =>
                  some ((ch.curried_functions.findSome? fun m =>
                    attemptMapCurried m nodeAlias innerAlias innerName
                      innerParameters translatedParameters).getD
                    (.curriedFunctionCall nodeAlias
                      (.functionCall innerAlias innerName innerParameters)
                      translatedParameters))
          -- `assert isinstance(internal_function, FunctionCall)` failure
          | _ => none
  | .subscriptableReference nodeAlias column key =>
      match ch.subscriptables.findSome? fun m =>
          attemptMapSubscript m nodeAlias column key with
      | some mapped => some mapped
      | none =>
          match translate ch column with
          | none => none
          | some translatedColumn =>
              match translate ch key with
              | none => none
              | some translatedKey =>
                  some (.subscriptableReference nodeAlias translatedColumn translatedKey)

def translateList (ch : TranslationMappers) : List Expression → Option (List Expression)
  | [] => some []
  | e :: es =>
      match translate ch e with
      | none => none
      | some te =>
          match translateList ch es with
          | none => none
          | some tes => some (te :: tes)

end

def isFunctionCallNode : Expression → Bool
  | .functionCall _ _ _ => true
  | _ => false

mutual

/-- Well-formed logical expression trees (§3 data model): the internal
function of a curried call is a `functionCall` node. -/
def wellFormed : Expression → Bool
  | .column _ _ _ => true
  | .literal _ _ => true
  | .functionCall _ _ parameters => wellFormedList parameters
  | .curriedFunctionCall _ internalFunction parameters =>
      isFunctionCallNode internalFunction
      && wellFormed internalFunction && wellFormedList parameters
  | .subscriptableReference _ column key => wellFormed column && wellFormed key

def wellFormedList : List Expression → Bool
  | [] => true
  | e :: es => wellFormed e && wellFormedList es

end

/-! ## Concrete discover configuration

Column names of the two physical schemas as flattened by `ColumnSet`
(`discover.py` lines 219-276); nested columns flatten to
`<name>.<subname>` entries. -/

def EVENTS_COLUMN_NAMES : List String :=
  ["group_id", "primary_hash", "level", "logger", "server_name", "site",
   "url", "location", "culprit", "received", "sdk_integrations", "version",
   "exception_stacks.type", "exception_stacks.value",
   "exception_stacks.mechanism_type", "exception_stacks.mechanism_handled",
   "exception_frames.abs_path", "exception_frames.filename",
   "exception_frames.package", "exception_frames.module",
   "exception_frames.function", "exception_frames.in_app",
   "exception_frames.colno", "exception_frames.lineno",
   "exception_frames.stack_level", "modules.name", "modules.version"]

def TRANSACTIONS_COLUMN_NAMES : List String :=
  ["trace_id", "span_id", "transaction_hash", "transaction_op",
   "transaction_status", "duration", "measurements.key", "measurements.value"]

/-- `events_translation_mappers` (discover.py lines 279-283). -/
def events_translation_mappers : TranslationMappers :=
  { columns := [.defaultNoneColumn TRANSACTIONS_COLUMN_NAMES]
    functions := [.defaultNoneFunction ["apdex", "failure_rate"]]
    subscriptables := [.defaultNoneSubscript ["measurements"]] }

/-- `transaction_translation_mappers` (discover.py lines 285-291). -/
def transaction_translation_mappers : TranslationMappers :=
  { columns :=
      [.columnToLiteral none "group_id" (some (.int 0)),
       .defaultNoneColumn EVENTS_COLUMN_NAMES]
    functions := [.defaultNoneFunction ["isHandled", "notHandled"]] }

/-- `null_function_translation_mappers` (discover.py lines 293-296). -/
def null_function_translation_mappers : TranslationMappers :=
  { curried_functions := [.defaultIfNullCurriedFunction]
    functions := [.defaultIfNullFunction] }

/-! ## Lemmas for translator totality -/

theorem exists_of_isFunctionCallNode {e : Expression}
    (h : isFunctionCallNode e = true) :
    ∃ a n ps, e = .functionCall a n ps := by
  cases e <;> simp [isFunctionCallNode] at h ⊢

theorem attemptMapFunction_shape {m : FunctionMapperDef} {a : Option String}
    {fn : String} {ps tps : List Expression} {r : Expression}
    (h : attemptMapFunction m a fn ps tps = some r) :
    ∃ a' n' ps', r = .functionCall a' n' ps' := by
  cases m with
  | defaultNoneFunction names =>
      simp only [attemptMapFunction] at h
      split at h
      · exact ⟨a, "identity", [.literal none none], by
          simpa [identityWrap] using (Option.some_inj.mp h).symm⟩
      · exact absurd h (by simp)
  | defaultIfNullFunction =>
      simp only [attemptMapFunction] at h
      split at h
      · exact ⟨a, "ifNull", [.literal none none, .literal none none],
          (Option.some_inj.mp h).symm⟩
      · exact absurd h (by simp)

theorem translate_functionCall_shape {ch : TranslationMappers}
    {a : Option String} {fn : String} {ps : List Expression} {r : Expression}
    (h : translate ch (.functionCall a fn ps) = some r) :
    ∃ a' n' ps', r = .functionCall a' n' ps' := by
  rw [translate] at h
  split at h
  next => exact absurd h (by simp)
  next tps _ =>
      have h' := Option.some_inj.mp h
      cases hfind : (ch.functions.findSome? fun m =>
          attemptMapFunction m a fn ps tps) with
      | none =>
          rw [hfind, Option.getD_none] at h'
          exact ⟨a, fn, tps, h'.symm⟩
      | some v =>
          rw [hfind, Option.getD_some] at h'
          obtain ⟨m, _, hm⟩ := List.exists_of_findSome?_eq_some hfind
          obtain ⟨a', n', ps', hv⟩ := attemptMapFunction_shape hm
          exact ⟨a', n', ps', by rw [← h', hv]⟩

theorem wellFormedList_mem {es : List Expression} {e : Expression}
    (h : wellFormedList es = true) (hmem : e ∈ es) : wellFormed e = true := by
  induction es with
  | nil => cases hmem
  | cons x xs ih =>
      rw [wellFormedList] at h
      rcases List.mem_cons.mp hmem with rfl | hmem'
      · exact (Bool.and_eq_true_iff.mp h).1
      · exact ih (Bool.and_eq_true_iff.mp h).2 hmem'

theorem translateList_isSome {ch : TranslationMappers} {es : List Expression}
    (h : ∀ e ∈ es, (translate ch e).isSome) :
    ∃ tes, translateList ch es = some tes := by
  induction es with
  | nil => exact ⟨[], rfl⟩
  | cons x xs ih =>
      obtain ⟨tx, htx⟩ := Option.isSome_iff_exists.mp (h x (by simp))
      obtain ⟨txs, htxs⟩ := ih fun e he => h e (by simp [he])
      exact ⟨tx :: txs, by rw [translateList, htx, htxs]⟩

theorem translate_isSome_aux (ch : TranslationMappers) :
    ∀ (n : Nat) (e : Expression), sizeOf e ≤ n → wellFormed e = true →
      (translate ch e).isSome := by
  intro n
  induction n with
  | zero =>
      intro e h
      exfalso
      cases e <;> simp_arith at h
  | succ n ih =>
      intro e hsize hwf
      match e with
      | .column a cn tn => rw [translate]; simp
      | .literal a v => rw [translate]; simp
      | .functionCall a fn ps =>
          rw [wellFormed] at hwf
          have hps : ∀ p ∈ ps, (translate ch p).isSome := by
            intro p hp
            have h1 : sizeOf p < sizeOf (Expression.functionCall a fn ps) := by
              have := List.sizeOf_lt_of_mem hp
              simp only [Expression.functionCall.sizeOf_spec]
              omega
            exact ih p (by omega) (wellFormedList_mem hwf hp)
          obtain ⟨tps, htps⟩ := translateList_isSome hps
          rw [translate, htps]
          cases (ch.functions.findSome? fun m =>
            attemptMapFunction m a fn ps tps) <;> simp
      | .curriedFunctionCall a inner ps =>
          rw [wellFormed] at hwf
          rw [Bool.and_eq_true_iff, Bool.and_eq_true_iff] at hwf
          obtain ⟨⟨hshape, hwfInner⟩, hwfPs⟩ := hwf
          have hsizeInner : sizeOf inner < sizeOf (Expression.curriedFunctionCall a inner ps) := by
            simp only [Expression.curriedFunctionCall.sizeOf_spec]; omega
          have hinner := ih inner (by omega) hwfInner
          obtain ⟨ti, hti⟩ := Option.isSome_iff_exists.mp hinner
          obtain ⟨ia, iname, ips, rfl⟩ := exists_of_isFunctionCallNode hshape
          obtain ⟨a', n', ps', rfl⟩ := translate_functionCall_shape hti
          have hps : ∀ p ∈ ps, (translate ch p).isSome := by
            intro p hp
            have h1 : sizeOf p < sizeOf (Expression.curriedFunctionCall a
                (Expression.functionCall ia iname ips) ps) := by
              have := List.sizeOf_lt_of_mem hp
              simp only [Expression.curriedFunctionCall.sizeOf_spec]
              omega
            exact ih p (by omega) (wellFormedList_mem hwfPs hp)
          obtain ⟨tps, htps⟩ := translateList_isSome hps
          rw [translate, hti, htps]
          cases (ch.curried_functions.findSome? fun m =>
            attemptMapCurried m a a' n' ps' tps) <;> simp
      | .subscriptableReference a c k =>
          rw [wellFormed, Bool.and_eq_true_iff] at hwf
          have hc : sizeOf c < sizeOf (Expression.subscriptableReference a c k) := by
            simp only [Expression.subscriptableReference.sizeOf_spec]; omega
          have hk : sizeOf k < sizeOf (Expression.subscriptableReference a c k) := by
            simp only [Expression.subscriptableReference.sizeOf_spec]; omega
          obtain ⟨tc, htc⟩ := Option.isSome_iff_exists.mp (ih c (by omega) hwf.1)
          obtain ⟨tk, htk⟩ := Option.isSome_iff_exists.mp (ih k (by omega) hwf.2)
          rw [translate]
          cases (ch.subscriptables.findSome? fun m =>
            attemptMapSubscript m a c k) with
          | some v => simp
          | none => rw [htc, htk]; simp

/-- **C1.** For every well-formed logical expression tree and every mapper
chain, the strict translator returns a translated tree: it never fails with
an unmapped/untranslatable-node error, because a node no mapper claims is
structurally reconstructed from its already-translated children.  (The only
`none` branch of `translate` is the malformed case the spec excludes: a
curried call whose internal function is not a function call.) -/
theorem strict_translator_totality (ch : TranslationMappers) (e : Expression)
    (hwf : wellFormed e = true) : ∃ r, translate ch e = some r :=
  Option.isSome_iff_exists.mp
    (translate_isSome_aux ch (sizeOf e) e (Nat.le_refl _) hwf)

theorem strict_translator_totality_witness :
    wellFormed (.curriedFunctionCall none
      (.functionCall none "quantile" [.literal none (some (.int 90))])
      [.column none "duration" none]) = true ∧
    ∃ r, translate (events_translation_mappers.concat
        null_function_translation_mappers)
      (.curriedFunctionCall none
        (.functionCall none "quantile" [.literal none (some (.int 90))])
        [.column none "duration" none]) = some r :=
  ⟨by decide, strict_translator_totality _ _ (by decide)⟩

/-! ## The ifNull-collapse mappers (C2)

`DefaultIfNullFunctionMapper.attempt_map` never inspects the mapped call's
own name or arity: the `ifNull`-shape pattern is applied only to the call's
(recursively translated) *parameters*.  Any call whose translated parameters
are all "null" (a null literal or an `ifNull(<literal>, <literal>)` call)
with at least one parameter collapses — including calls that are not named
`ifNull` and do not have two arguments. -/

theorem ifNull_collapse_claim_false :
    translate null_function_translation_mappers
        (.functionCall none "foo" [.literal none none]) =
      some (.functionCall none "ifNull" [.literal none none, .literal none none])
    ∧ "foo" ≠ "ifNull"
    ∧ [Expression.literal none none].length ≠ 2 :=
  ⟨rfl, by decide, by decide⟩

/-- **C2 (amended).**  The ifNull-collapse mappers collapse any function call
(of any name and arity) all of whose recursively translated parameters are
the NULL literal or a call matching `ifNull(<literal>, <literal>)`, with at
least one parameter present: the function variant returns
`ifNull(NULL, NULL)` carrying the original call's alias, and the curried
variant renames the (translated) inner function to `<name>OrNull`, keeps its
parameters, replaces every outer parameter with NULL and keeps the alias; a
call with any non-null-like parameter — in particular
`ifNull(NULL, Literal(5))` — is left untouched (the mapper returns absent
and the call is structurally reconstructed). -/
theorem ifNull_collapse_characterization :
    (∀ (a : Option String) (fn : String) (ps tps : List Expression),
      translateList null_function_translation_mappers ps = some tps →
      tps.all paramIsNull = true → 0 < tps.length →
      translate null_function_translation_mappers (.functionCall a fn ps) =
        some (.functionCall a "ifNull" [.literal none none, .literal none none]))
    ∧ (∀ (a : Option String) (fn : String) (ps tps : List Expression),
      translateList null_function_translation_mappers ps = some tps →
      ¬ (tps.all paramIsNull = true ∧ 0 < tps.length) →
      translate null_function_translation_mappers (.functionCall a fn ps) =
        some (.functionCall a fn tps))
    ∧ (∀ (a ia : Option String) (inner : Expression) (iname : String)
        (ips ps tps : List Expression),
      translate null_function_translation_mappers inner =
        some (.functionCall ia iname ips) →
      translateList null_function_translation_mappers ps = some tps →
      tps.all paramIsNull = true → 0 < tps.length →
      translate null_function_translation_mappers
          (.curriedFunctionCall a inner ps) =
        some (.curriedFunctionCall a
          (.functionCall none (iname ++ "OrNull") ips)
          (tps.map fun _ => Expression.literal none none)))
    ∧ translate null_function_translation_mappers
        (.functionCall none "ifNull" [.literal none none, .literal none (some (.int 5))]) =
      some (.functionCall none "ifNull"
        [.literal none none, .literal none (some (.int 5))]) := by
  refine ⟨?_, ?_, ?_, rfl⟩
  · intro a fn ps tps htps hnull hlen
    rw [translate, htps]
    dsimp only
    have : (null_function_translation_mappers.functions.findSome? fun m =>
        attemptMapFunction m a fn ps tps) =
        some (.functionCall a "ifNull" [.literal none none, .literal none none]) := by
      simp only [null_function_translation_mappers, List.findSome?,
        attemptMapFunction]
      rw [if_pos (by simp [hnull]; omega)]
    rw [this, Option.getD_some]
  · intro a fn ps tps htps hnot
    rw [translate, htps]
    dsimp only
    have : (null_function_translation_mappers.functions.findSome? fun m =>
        attemptMapFunction m a fn ps tps) = none := by
      simp only [null_function_translation_mappers, List.findSome?,
        attemptMapFunction]
      rw [if_neg (by
        intro hcontra
        rw [Bool.and_eq_true_iff] at hcontra
        exact hnot ⟨hcontra.1, by
          have := hcontra.2
          simp only [decide_eq_true_eq] at this
          omega⟩)]
    rw [this, Option.getD_none]
  · intro a ia inner iname ips ps tps hinner htps hnull hlen
    rw [translate, hinner, htps]
    dsimp only
    have : (null_function_translation_mappers.curried_functions.findSome? fun m =>
        attemptMapCurried m a ia iname ips tps) =
        some (.curriedFunctionCall a
          (.functionCall none (iname ++ "OrNull") ips)
          (tps.map fun _ => Expression.literal none none)) := by
      simp only [null_function_translation_mappers, List.findSome?,
        attemptMapCurried]
      rw [if_pos (by simp [hnull]; omega)]
    rw [this, Option.getD_some]

theorem ifNull_collapse_characterization_witness :
    (translateList null_function_translation_mappers
        [.literal none none, .literal none none] =
      some [.literal none none, .literal none none])
    ∧ ([Expression.literal none none, .literal none none].all paramIsNull = true)
    ∧ (0 < [Expression.literal none none, .literal none none].length)
    ∧ translate null_function_translation_mappers
        (.functionCall (some "x") "ifNull" [.literal none none, .literal none none]) =
      some (.functionCall (some "x") "ifNull"
        [.literal none none, .literal none none]) :=
  ⟨rfl, by decide, by decide,
    ifNull_collapse_characterization.1 (some "x") "ifNull"
      [.literal none none, .literal none none]
      [.literal none none, .literal none none] rfl (by decide) (by decide)⟩

/-! ## Chain concatenation (C6) -/

/-- **C6.**  Concatenating two mapper chains concatenates the per-node-kind
rule sequences — `[...a, ...b]`, never deduplicated or reordered; within a
sequence the first rule returning a non-absent result wins (later rules are
not consulted); and in the transactions chain, where `ColumnToLiteral(None,
"group_id", 0)` precedes `DefaultNoneColumnMapper(EVENTS_COLUMNS)` whose
column set also contains `group_id`, translating `Column{group_id}` yields
the literal `0`, not NULL (although the second mapper alone would null it). -/
theorem chain_concat_order :
    (∀ a b : TranslationMappers,
      (a.concat b).columns = a.columns ++ b.columns
      ∧ (a.concat b).functions = a.functions ++ b.functions
      ∧ (a.concat b).curried_functions = a.curried_functions ++ b.curried_functions
      ∧ (a.concat b).subscriptables = a.subscriptables ++ b.subscriptables)
    ∧ (∀ (a b : TranslationMappers) (al : Option String) (cn : String)
        (tn : Option String) (r : Expression),
      (a.columns.findSome? fun m => attemptMapColumn m al cn tn) = some r →
      ((a.concat b).columns.findSome? fun m => attemptMapColumn m al cn tn) = some r
      ∧ translate (a.concat b) (.column al cn tn) = some r)
    ∧ EVENTS_COLUMN_NAMES.contains "group_id" = true
    ∧ translate (transaction_translation_mappers.concat
          null_function_translation_mappers)
        (.column none "group_id" none) =
      some (.literal none (some (.int 0)))
    ∧ attemptMapColumn (.defaultNoneColumn EVENTS_COLUMN_NAMES) none "group_id" none =
      some (.literal (some "group_id") none) := by
  refine ⟨fun a b => ⟨rfl, rfl, rfl, rfl⟩, ?_, by decide, rfl, rfl⟩
  intro a b al cn tn r hfirst
  have happ : ((a.concat b).columns.findSome? fun m =>
      attemptMapColumn m al cn tn) = some r := by
    show ((a.columns ++ b.columns).findSome? fun m =>
      attemptMapColumn m al cn tn) = some r
    rw [List.findSome?_append, hfirst, Option.or_some]
  exact ⟨happ, by rw [translate, happ, Option.getD_some]⟩

theorem chain_concat_order_witness :
    ((events_translation_mappers.columns.findSome? fun m =>
        attemptMapColumn m (some "t") "trace_id" none) =
      some (.literal (some "t") none))
    ∧ ((events_translation_mappers.concat
          null_function_translation_mappers).columns.findSome? fun m =>
        attemptMapColumn m (some "t") "trace_id" none) =
      some (.literal (some "t") none)
    ∧ translate (events_translation_mappers.concat
          null_function_translation_mappers)
        (.column (some "t") "trace_id" none) =
      some (.literal (some "t") none) :=
  ⟨rfl,
    (chain_concat_order.2.1 events_translation_mappers
      null_function_translation_mappers (some "t") "trace_id" none _ rfl).1,
    (chain_concat_order.2.1 events_translation_mappers
      null_function_translation_mappers (some "t") "trace_id" none _ rfl).2⟩

/-! ## The column-to-NULL mapper (C7)

`DefaultNoneColumnMapper.attempt_map` computes the result alias with
Python's `or`: `expression.alias or qualified_column(...)`.  An *empty
string* alias is falsy in Python, so it is **not** preserved — the
table-qualified column name replaces it. -/

theorem column_to_null_alias_claim_false :
    attemptMapColumn (.defaultNoneColumn TRANSACTIONS_COLUMN_NAMES)
        (some "") "trace_id" none =
      some (.literal (some "trace_id") none)
    ∧ some "trace_id" ≠ some "" :=
  ⟨rfl, by decide⟩

/-- **C7 (amended).**  For every column reference whose name is in the
configured null-column set, the column-to-NULL mapper returns a NULL literal
whose alias is the reference's alias when that alias is non-empty —
`Column{name="group_id", alias="g"}` becomes `Literal{value=null,
alias="g"}` — and when the reference has no alias (or an empty-string
alias), the table-qualified column name is used as the alias; references to
columns outside the set yield absent. -/
theorem column_to_null_mapper_characterization :
    (∀ (cols : List String) (s cn : String) (tn : Option String),
      cols.contains cn = true → s ≠ "" →
      attemptMapColumn (.defaultNoneColumn cols) (some s) cn tn =
        some (.literal (some s) none))
    ∧ (∀ (cols : List String) (cn : String) (tn : Option String),
      cols.contains cn = true →
      attemptMapColumn (.defaultNoneColumn cols) none cn tn =
        some (.literal (some (qualified_column cn (pyStrOr tn ""))) none))
    ∧ (∀ (cols : List String) (al : Option String) (cn : String)
        (tn : Option String),
      cols.contains cn = false →
      attemptMapColumn (.defaultNoneColumn cols) al cn tn = none)
    ∧ translate { columns := [.defaultNoneColumn EVENTS_COLUMN_NAMES] }
        (.column (some "g") "group_id" none) =
      some (.literal (some "g") none) := by
  refine ⟨?_, ?_, ?_, rfl⟩
  · intro cols s cn tn hmem hs
    simp only [attemptMapColumn, hmem, if_true, pyStrOr, if_neg hs]
  · intro cols cn tn hmem
    simp only [attemptMapColumn, hmem, if_true, pyStrOr]
  · intro cols al cn tn hmem
    simp only [attemptMapColumn, hmem, Bool.false_eq_true, if_false]

theorem column_to_null_mapper_characterization_witness :
    (EVENTS_COLUMN_NAMES.contains "group_id" = true ∧ "g" ≠ ""
      ∧ attemptMapColumn (.defaultNoneColumn EVENTS_COLUMN_NAMES)
          (some "g") "group_id" none = some (.literal (some "g") none))
    ∧ attemptMapColumn (.defaultNoneColumn EVENTS_COLUMN_NAMES)
        none "group_id" (some "events") =
      some (.literal (some "events.group_id") none)
    ∧ attemptMapColumn (.defaultNoneColumn EVENTS_COLUMN_NAMES)
        (some "t") "trace_id" none = none :=
  ⟨⟨by decide, by decide,
      column_to_null_mapper_characterization.1 EVENTS_COLUMN_NAMES "g"
        "group_id" none (by decide) (by decide)⟩,
    column_to_null_mapper_characterization.2.1 EVENTS_COLUMN_NAMES
      "group_id" (some "events") (by decide),
    column_to_null_mapper_characterization.2.2.1 EVENTS_COLUMN_NAMES
      (some "t") "trace_id" none (by decide)⟩

/-! ## Consistency state store (`snuba/replacer.py`)

The store is Redis (an external collaborator); we model the slice of its
documented semantics the replacer uses: sorted sets with per-member scores,
string values, key-level expiry (an expired key reads as absent; a sorted
set that becomes empty is deleted), `ZADD`, `ZREMRANGEBYSCORE`,
`ZREVRANGEBYSCORE`, `EXPIRE`, `SET ... EX`, `GET`.  Time is rational
(`time.time()` seconds).  Keys are tagged by project id: the rendered forms
are `project_exclude_groups:<id>` and `project_needs_final:<id>`, injective
in the id, and sorted-set members are the decimal strings of group ids
(written with `str`, read back with `int`), so members are modelled as the
ids themselves. -/

inductive RedisKey where
  | excludeGroups (projectId : Nat)
  | needsFinal (projectId : Nat)
  deriving DecidableEq

/-- Association-list primitives for the store model. -/
def alookup {κ β : Type} [DecidableEq κ] : List (κ × β) → κ → Option β
  | [], _ => none
  | (k0, v0) :: rest, k => if k = k0 then some v0 else alookup rest k

def aset {κ β : Type} [DecidableEq κ] : List (κ × β) → κ → β → List (κ × β)
  | [], k, v => [(k, v)]
  | (k0, v0) :: rest, k, v =>
      if k = k0 then (k, v) :: rest else (k0, v0) :: aset rest k v

def aremove {κ β : Type} [DecidableEq κ] : List (κ × β) → κ → List (κ × β)
  | [], _ => []
  | (k0, v0) :: rest, k =>
      if k = k0 then aremove rest k else (k0, v0) :: aremove rest k

structure ZSetValue where
  entries : List (Nat × ℚ)
  expireAt : Option ℚ
  deriving DecidableEq

structure RedisState where
  zsets : List (RedisKey × ZSetValue)
  strings : List (RedisKey × (Bool × ℚ))
  deriving DecidableEq

def emptyRedis : RedisState := ⟨[], []⟩

/-- The live entry list of a sorted set: empty when the key is absent or its
expiry has passed. -/
def zsetLive (s : RedisState) (key : RedisKey) (now : ℚ) : List (Nat × ℚ) :=
  match alookup s.zsets key with
  | none => []
  | some z =>
      match z.expireAt with
      | none => z.entries
      | some t => if now < t then z.entries else []

/-- The surviving expiry of a live key (`none` when the key is absent,
expired, or persistent). -/
def liveExpire (s : RedisState) (key : RedisKey) (now : ℚ) : Option ℚ :=
  match alookup s.zsets key with
  | none => none
  | some z =>
      match z.expireAt with
      | none => none
      | some t => if now < t then some t else none

/-- `ZADD key {member: score, ...}`: upsert each member; an existing live
key keeps its TTL, an absent/expired key is (re)created persistent. -/
def zadd (s : RedisState) (key : RedisKey) (members : List Nat) (score : ℚ)
    (now : ℚ) : RedisState :=
  let entries := members.foldl (fun es m => aset es m score) (zsetLive s key now)
  { s with zsets := aset s.zsets key ⟨entries, liveExpire s key now⟩ }

/-- Score range test for `ZREMRANGEBYSCORE key lo hi` (both ends inclusive;
`lo = none` is `-inf`). -/
def inRemRange (lo : Option ℚ) (hi : ℚ) (sc : ℚ) : Bool :=
  (match lo with | none => true | some l => decide (l ≤ sc)) && decide (sc ≤ hi)

/-- `ZREMRANGEBYSCORE key lo hi`: drop members with score in the range; a
sorted set left empty is deleted. -/
def zremrangebyscore (s : RedisState) (key : RedisKey) (lo : Option ℚ)
    (hi : ℚ) (now : ℚ) : RedisState :=
  let kept := (zsetLive s key now).filter fun e => ! inRemRange lo hi e.2
  if kept.isEmpty then
    { s with zsets := aremove s.zsets key }
  else
    { s with zsets := aset s.zsets key ⟨kept, liveExpire s key now⟩ }

/-- `ZREVRANGEBYSCORE key +inf min`: members with score ≥ `min`.  Redis
returns them in descending score order; the only caller feeds the result
into a sorted deduplicated union, so the stored order is kept here. -/
def zrevrangebyscore (s : RedisState) (key : RedisKey) (minScore : ℚ)
    (now : ℚ) : List Nat :=
  ((zsetLive s key now).filter fun e => decide (minScore ≤ e.2)).map (·.1)

/-- `EXPIRE key ttl` on a sorted set (no-op on an absent/expired key). -/
def zexpire (s : RedisState) (key : RedisKey) (ttl : Nat) (now : ℚ) : RedisState :=
  let live := zsetLive s key now
  if live.isEmpty then s
  else { s with zsets := aset s.zsets key ⟨live, some (now + (ttl : ℚ))⟩ }

/-- `SET key value EX ttl`. -/
def redisSetEx (s : RedisState) (key : RedisKey) (value : Bool) (ttl : Nat)
    (now : ℚ) : RedisState :=
  { s with strings := aset s.strings key (value, now + (ttl : ℚ)) }

/-- `GET key` (absent or expired keys read as `none`). -/
def redisGet (s : RedisState) (key : RedisKey) (now : ℚ) : Option Bool :=
  match alookup s.strings key with
  | none => none
  | some (v, t) => if now < t then some v else none

def get_project_exclude_groups_key (projectId : Nat) : RedisKey :=
  .excludeGroups projectId

def get_project_needs_final_key (projectId : Nat) : RedisKey :=
  .needsFinal projectId

/-- `set_project_exclude_groups` (replacer.py lines 30-43).  `ttl` is
`settings.REPLACER_KEY_TTL` (an integral number of seconds, passed
explicitly since `settings` is configuration), `now` is `time.time()`. -/
def set_project_exclude_groups (ttl : Nat) (projectId : Nat)
    (groupIds : List Nat) (now : ℚ) (s : RedisState) : RedisState :=
  let key := get_project_exclude_groups_key projectId
  let s1 := zadd s key groupIds now now
  let s2 := zremrangebyscore s1 key (some (-1)) (now - (ttl : ℚ)) now
  zexpire s2 key ttl now

/-- `set_project_needs_final` (replacer.py lines 50-53). -/
def set_project_needs_final (ttl : Nat) (projectId : Nat) (now : ℚ)
    (s : RedisState) : RedisState :=
  redisSetEx s (get_project_needs_final_key projectId) true ttl now

/-- Python `sum(lists, [])`. -/
def pySum (ls : List (List Nat)) : List Nat := ls.foldl (· ++ ·) []

/-- Insert into a strictly ascending list, dropping duplicates. -/
def insertSorted (x : Nat) : List Nat → List Nat
  | [] => [x]
  | a :: ys =>
      if x < a then x :: a :: ys
      else if x = a then a :: ys
      else a :: insertSorted x ys

/-- Python `sorted({...})`: the deduplicated ascending ordering of a list. -/
def sortedDedup (xs : List Nat) : List Nat := xs.foldr insertSorted []

/-- One step of the per-project pipeline segment of
`get_projects_query_flags`: trim the project's exclude-groups sorted set,
then read the surviving members, appending the reply. -/
def queryFlagsStep (ttl : Nat) (now : ℚ)
    (acc : RedisState × List (List Nat)) (p : Nat) :
    RedisState × List (List Nat) :=
  let s1 := zremrangebyscore acc.1 (get_project_exclude_groups_key p) none
    (now - (ttl : ℚ)) now
  let members := zrevrangebyscore s1 (get_project_exclude_groups_key p)
    (now - (ttl : ℚ)) now
  (s1, acc.2 ++ [members])

/-- `get_projects_query_flags` (replacer.py lines 56-86).  The pipeline
issues one `GET` per project (string keys are disjoint from sorted-set
keys, so reading them against the initial state is exact), then per project
a `ZREMRANGEBYSCORE -inf (now-ttl)` followed by a `ZREVRANGEBYSCORE +inf
(now-ttl)`; the result slice `results[(len(project_ids) + 1)::2]` is
exactly the list of `ZREVRANGEBYSCORE` replies, in project order, which the
fold accumulates directly.  Returns the `(needs_final, exclude_groups)`
pair together with the mutated store. -/
def get_projects_query_flags (ttl : Nat) (projectIds : List Nat) (now : ℚ)
    (s : RedisState) : (Bool × List Nat) × RedisState :=
  let pids := projectIds.dedup
  let needs_final := pids.any fun p =>
    (redisGet s (get_project_needs_final_key p) now).isSome
  let folded := pids.foldl (queryFlagsStep ttl now) (s, [])
  ((needs_final, sortedDedup (pySum folded.2)), folded.1)

/-- Spec-side reading of "project `p` has an unexpired needs-final flag". -/
def projectNeedsFinal (s : RedisState) (p : Nat) (now : ℚ) : Bool :=
  (redisGet s (get_project_needs_final_key p) now).isSome

/-- Spec-side reading of "group `g` is a non-expired excluded id of project
`p`": a live sorted-set entry strictly younger than the retention window. -/
def liveExcludedGroup (ttl : Nat) (s : RedisState) (p : Nat) (now : ℚ)
    (g : Nat) : Prop :=
  ∃ sc : ℚ, (g, sc) ∈ zsetLive s (get_project_exclude_groups_key p) now
    ∧ now - (ttl : ℚ) < sc

/-! ### Lemmas about the store model -/

theorem alookup_aset {κ β : Type} [DecidableEq κ] (l : List (κ × β))
    (k k' : κ) (v : β) :
    alookup (aset l k v) k' = if k' = k then some v else alookup l k' := by
  induction l with
  | nil => simp [aset, alookup]
  | cons hd tl ih =>
      obtain ⟨k0, v0⟩ := hd
      rw [aset]
      by_cases h1 : k = k0
      · subst h1
        rw [if_pos rfl, alookup, alookup]
        by_cases h2 : k' = k <;> simp [h2]
      · have h1' : ∀ hk : k' = k0, ¬ k' = k := fun hk hc => h1 (hc.symm.trans hk)
        rw [if_neg h1, alookup, alookup]
        by_cases h2 : k' = k0
        · rw [if_pos h2, if_pos h2, if_neg (h1' h2)]
        · rw [if_neg h2, if_neg h2, ih]

theorem alookup_aremove {κ β : Type} [DecidableEq κ] (l : List (κ × β))
    (k k' : κ) :
    alookup (aremove l k) k' = if k' = k then none else alookup l k' := by
  induction l with
  | nil => simp [aremove, alookup]
  | cons hd tl ih =>
      obtain ⟨k0, v0⟩ := hd
      rw [aremove]
      by_cases h1 : k = k0
      · subst h1
        rw [if_pos rfl, ih]
        by_cases h2 : k' = k <;> simp [h2, alookup]
      · have h1' : ∀ hk : k' = k0, ¬ k' = k := fun hk hc => h1 (hc.symm.trans hk)
        rw [if_neg h1, alookup, alookup]
        by_cases h2 : k' = k0
        · rw [if_pos h2, if_pos h2, if_neg (h1' h2)]
        · rw [if_neg h2, if_neg h2, ih]

theorem liveExpire_some_lt {s : RedisState} {k : RedisKey} {now t : ℚ}
    (h : liveExpire s k now = some t) : now < t := by
  rw [liveExpire] at h
  cases halo : alookup s.zsets k with
  | none => simp [halo] at h
  | some z =>
      simp only [halo] at h
      cases hz : z.expireAt with
      | none => simp [hz] at h
      | some u =>
          simp only [hz] at h
          by_cases hlt : now < u
          · rw [if_pos hlt] at h
            exact (Option.some_inj.mp h) ▸ hlt
          · rw [if_neg hlt] at h; cases h

theorem zsetLive_zrem_self (s : RedisState) (k : RedisKey) (lo : Option ℚ)
    (hi : ℚ) (now : ℚ) :
    zsetLive (zremrangebyscore s k lo hi now) k now =
      (zsetLive s k now).filter fun e => ! inRemRange lo hi e.2 := by
  rw [zremrangebyscore]
  by_cases hemp : ((zsetLive s k now).filter fun e => ! inRemRange lo hi e.2).isEmpty
  · rw [if_pos hemp, zsetLive]
    dsimp only
    rw [alookup_aremove, if_pos rfl]
    exact (List.isEmpty_iff.mp hemp).symm
  · rw [if_neg hemp, zsetLive]
    dsimp only
    rw [alookup_aset, if_pos rfl]
    dsimp only
    cases hle : liveExpire s k now with
    | none => rfl
    | some t => simp [liveExpire_some_lt hle]

theorem zsetLive_zrem_other (s : RedisState) (k k' : RedisKey)
    (lo : Option ℚ) (hi : ℚ) (now now' : ℚ) (h : k' ≠ k) :
    zsetLive (zremrangebyscore s k lo hi now) k' now' = zsetLive s k' now' := by
  rw [zremrangebyscore]
  by_cases hemp : ((zsetLive s k now).filter fun e => ! inRemRange lo hi e.2).isEmpty
  · rw [if_pos hemp, zsetLive]
    dsimp only
    rw [alookup_aremove, if_neg h]
    rfl
  · rw [if_neg hemp, zsetLive]
    dsimp only
    rw [alookup_aset, if_neg h]
    rfl

theorem strings_zrem (s : RedisState) (k : RedisKey) (lo : Option ℚ)
    (hi : ℚ) (now : ℚ) :
    (zremrangebyscore s k lo hi now).strings = s.strings := by
  rw [zremrangebyscore]
  by_cases hemp : ((zsetLive s k now).filter fun e => ! inRemRange lo hi e.2).isEmpty
  · rw [if_pos hemp]
  · rw [if_neg hemp]

/-! ### Sorted deduplicated unions -/

theorem mem_insertSorted (x y : Nat) (l : List Nat) :
    y ∈ insertSorted x l ↔ y = x ∨ y ∈ l := by
  induction l with
  | nil => simp [insertSorted]
  | cons a ys ih =>
      rw [insertSorted]
      by_cases h1 : x < a
      · rw [if_pos h1]; simp
      · by_cases h2 : x = a
        · subst h2
          rw [if_neg h1, if_pos rfl]
          simp only [List.mem_cons]
          tauto
        · rw [if_neg h1, if_neg h2]
          simp only [List.mem_cons, ih]
          tauto

theorem sorted_insertSorted (x : Nat) (l : List Nat)
    (h : List.Sorted (· < ·) l) :
    List.Sorted (· < ·) (insertSorted x l) := by
  induction l with
  | nil => simp [insertSorted]
  | cons a ys ih =>
      rw [List.sorted_cons] at h
      rw [insertSorted]
      by_cases h1 : x < a
      · rw [if_pos h1, List.sorted_cons]
        refine ⟨?_, List.sorted_cons.mpr h⟩
        intro b hb
        rcases List.mem_cons.mp hb with rfl | hb'
        · exact h1
        · exact lt_trans h1 (h.1 b hb')
      · by_cases h2 : x = a
        · rw [if_neg h1, if_pos h2]
          exact List.sorted_cons.mpr h
        · rw [if_neg h1, if_neg h2, List.sorted_cons]
          refine ⟨?_, ih h.2⟩
          intro b hb
          rcases (mem_insertSorted x b ys).mp hb with rfl | hb'
          · omega
          · exact h.1 b hb'

theorem mem_sortedDedup (xs : List Nat) (g : Nat) :
    g ∈ sortedDedup xs ↔ g ∈ xs := by
  induction xs with
  | nil => simp [sortedDedup]
  | cons a ys ih =>
      rw [sortedDedup, List.foldr_cons]
      rw [mem_insertSorted]
      rw [sortedDedup] at ih
      simp [ih]

theorem sorted_sortedDedup (xs : List Nat) :
    List.Sorted (· < ·) (sortedDedup xs) := by
  induction xs with
  | nil => simp [sortedDedup]
  | cons a ys ih =>
      rw [sortedDedup, List.foldr_cons]
      exact sorted_insertSorted a _ ih

theorem mem_pySum (ls : List (List Nat)) (g : Nat) :
    g ∈ pySum ls ↔ ∃ l ∈ ls, g ∈ l := by
  suffices h : ∀ acc : List Nat, g ∈ ls.foldl (· ++ ·) acc ↔
      g ∈ acc ∨ ∃ l ∈ ls, g ∈ l by
    rw [pySum, h]
    simp
  induction ls with
  | nil => simp
  | cons a ys ih =>
      intro acc
      rw [List.foldl_cons, ih]
      simp only [List.mem_append, List.mem_cons]
      constructor
      · rintro ((h | h) | ⟨l, hl, hg⟩)
        · exact Or.inl h
        · exact Or.inr ⟨a, Or.inl rfl, h⟩
        · exact Or.inr ⟨l, Or.inr hl, hg⟩
      · rintro (h | ⟨l, rfl | hl, hg⟩)
        · exact Or.inl (Or.inl h)
        · exact Or.inl (Or.inr hg)
        · exact Or.inr ⟨l, hl, hg⟩

/-- The members `get_projects_query_flags` reads for one project, as a pure
function of the pre-pipeline store: live entries strictly younger than the
retention window. -/
def readLiveMembers (ttl : Nat) (s : RedisState) (p : Nat) (now : ℚ) :
    List Nat :=
  ((zsetLive s (get_project_exclude_groups_key p) now).filter fun e =>
    decide (now - (ttl : ℚ) < e.2)).map (·.1)

theorem queryFlagsStep_eq (ttl : Nat) (now : ℚ) (s : RedisState)
    (acc : List (List Nat)) (p : Nat) :
    queryFlagsStep ttl now (s, acc) p =
      (zremrangebyscore s (get_project_exclude_groups_key p) none
        (now - (ttl : ℚ)) now,
       acc ++ [readLiveMembers ttl s p now]) := by
  rw [queryFlagsStep]
  dsimp only
  refine Prod.ext rfl ?_
  have hmembers : zrevrangebyscore (zremrangebyscore s
      (get_project_exclude_groups_key p) none (now - (ttl : ℚ)) now)
      (get_project_exclude_groups_key p) (now - (ttl : ℚ)) now =
      readLiveMembers ttl s p now := by
    rw [zrevrangebyscore, zsetLive_zrem_self, readLiveMembers,
      List.filter_filter]
    congr 1
    apply List.filter_congr
    intro e _
    by_cases h : e.2 ≤ now - (ttl : ℚ)
    · simp [inRemRange, h, not_lt.mpr h]
    · simp [inRemRange, h, le_of_lt (not_le.mp h), not_le.mp h]
  rw [hmembers]

theorem foldl_queryFlagsStep (ttl : Nat) (now : ℚ) :
    ∀ (pids : List Nat), pids.Nodup →
      ∀ (s : RedisState) (acc : List (List Nat)),
      (pids.foldl (queryFlagsStep ttl now) (s, acc)).2 =
        acc ++ pids.map fun p => readLiveMembers ttl s p now := by
  intro pids
  induction pids with
  | nil => intro _ s acc; simp
  | cons p rest ih =>
      intro hnd s acc
      rw [List.foldl_cons, queryFlagsStep_eq,
        ih (List.nodup_cons.mp hnd).2]
      have hmap : ∀ q ∈ rest,
          readLiveMembers ttl (zremrangebyscore s
            (get_project_exclude_groups_key p) none (now - (ttl : ℚ)) now)
            q now = readLiveMembers ttl s q now := by
        intro q hq
        have hne : q ≠ p := fun hc => (List.nodup_cons.mp hnd).1 (hc ▸ hq)
        have hkey : get_project_exclude_groups_key q ≠
            get_project_exclude_groups_key p := by
          simp only [get_project_exclude_groups_key, ne_eq,
            RedisKey.excludeGroups.injEq]
          exact hne
        rw [readLiveMembers, readLiveMembers,
          zsetLive_zrem_other s _ _ _ _ now now hkey]
      rw [List.map_congr_left hmap]
      simp

theorem mem_readLiveMembers (ttl : Nat) (s : RedisState) (p : Nat) (now : ℚ)
    (g : Nat) :
    g ∈ readLiveMembers ttl s p now ↔ liveExcludedGroup ttl s p now g := by
  rw [readLiveMembers, liveExcludedGroup]
  simp only [List.mem_map, List.mem_filter, decide_eq_true_eq]
  constructor
  · rintro ⟨⟨g', sc⟩, ⟨hmem, hlt⟩, rfl⟩
    exact ⟨sc, hmem, hlt⟩
  · rintro ⟨sc, hmem, hlt⟩
    exact ⟨(g, sc), ⟨hmem, hlt⟩, rfl⟩

/-- The store state `recordExcludedIds(p, [1,2])` at time `t` produces from
an empty store: members 1 and 2 scored `t`, the whole set expiring at
`t + ttl`. -/
theorem record_two_state (ttl p : Nat) (t : ℚ) (h : 0 < ttl) :
    set_project_exclude_groups ttl p [1, 2] t emptyRedis =
      ⟨[(.excludeGroups p, ⟨[(1, t), (2, t)], some (t + (ttl : ℚ))⟩)], []⟩ := by
  have httl : (0 : ℚ) < (ttl : ℚ) := by exact_mod_cast h
  have h1 : ¬(t ≤ t - (ttl : ℚ)) := by linarith
  simp [set_project_exclude_groups, zadd, zremrangebyscore, zexpire,
    zsetLive, liveExpire, emptyRedis, alookup, aset, inRemRange,
    get_project_exclude_groups_key, h1]

theorem query_after_record_within (ttl p : Nat) (t now1 : ℚ) (h : 0 < ttl)
    (hwin : now1 < t + (ttl : ℚ)) :
    (get_projects_query_flags ttl [p] now1
      (set_project_exclude_groups ttl p [1, 2] t emptyRedis)).1 =
      (false, [1, 2]) := by
  rw [record_two_state ttl p t h]
  have httl : (0 : ℚ) < (ttl : ℚ) := by exact_mod_cast h
  have hkeep : ¬(t ≤ now1 - (ttl : ℚ)) := by linarith
  have hmin : now1 - (ttl : ℚ) < t := by linarith
  have hle : now1 ≤ t + (ttl : ℚ) := le_of_lt hwin
  rw [get_projects_query_flags]
  rw [show ([p] : List Nat).dedup = [p] from by simp]
  simp [queryFlagsStep, zremrangebyscore, zrevrangebyscore, zsetLive,
    liveExpire, alookup, aset, inRemRange, redisGet,
    get_project_needs_final_key, get_project_exclude_groups_key, pySum,
    sortedDedup, insertSorted, hwin, hkeep, hmin, hle]

theorem query_after_record_elapsed (ttl p : Nat) (t now2 : ℚ) (h : 0 < ttl)
    (hgone : t + (ttl : ℚ) ≤ now2) :
    (get_projects_query_flags ttl [p] now2
      (set_project_exclude_groups ttl p [1, 2] t emptyRedis)).1 =
      (false, []) := by
  rw [record_two_state ttl p t h]
  have hdead : ¬(now2 < t + (ttl : ℚ)) := by linarith
  rw [get_projects_query_flags]
  rw [show ([p] : List Nat).dedup = [p] from by simp]
  simp [queryFlagsStep, zremrangebyscore, zrevrangebyscore, zsetLive,
    liveExpire, alookup, aset, aremove, inRemRange, redisGet,
    get_project_needs_final_key, get_project_exclude_groups_key, pySum,
    sortedDedup, insertSorted, hdead]

/-- **C3.**  `queryFlags` returns `needsFinalAny` true iff at least one
queried project has an unexpired needs-final flag, and `excludedIds` equal
to the deduplicated, ascending-sorted union of every queried project's
non-expired excluded ids; `recordExcludedIds(p, [1,2])` followed by
`queryFlags([p])` within the retention window returns `excludedIds =
[1,2]`, and once the retention window has elapsed the same call returns
`excludedIds = []` and `needsFinalAny = false`. -/
theorem query_flags_spec :
    (∀ (ttl : Nat) (projectIds : List Nat) (now : ℚ) (s : RedisState),
      ((get_projects_query_flags ttl projectIds now s).1.1 = true ↔
        ∃ p ∈ projectIds, projectNeedsFinal s p now = true)
      ∧ List.Sorted (· < ·) (get_projects_query_flags ttl projectIds now s).1.2
      ∧ (∀ g : Nat,
          g ∈ (get_projects_query_flags ttl projectIds now s).1.2 ↔
          ∃ p ∈ projectIds, liveExcludedGroup ttl s p now g))
    ∧ (∀ (ttl p : Nat) (t now1 : ℚ), 0 < ttl → now1 < t + (ttl : ℚ) →
        (get_projects_query_flags ttl [p] now1
          (set_project_exclude_groups ttl p [1, 2] t emptyRedis)).1 =
          (false, [1, 2]))
    ∧ (∀ (ttl p : Nat) (t now2 : ℚ), 0 < ttl → t + (ttl : ℚ) ≤ now2 →
        (get_projects_query_flags ttl [p] now2
          (set_project_exclude_groups ttl p [1, 2] t emptyRedis)).1 =
          (false, [])) := by
  refine ⟨?_, query_after_record_within, query_after_record_elapsed⟩
  intro ttl projectIds now s
  have hfold := foldl_queryFlagsStep ttl now projectIds.dedup
    (List.nodup_dedup _) s []
  refine ⟨?_, ?_, ?_⟩
  · rw [get_projects_query_flags]
    simp only [List.any_eq_true, List.mem_dedup, projectNeedsFinal]
  · rw [get_projects_query_flags]
    exact sorted_sortedDedup _
  · intro g
    rw [get_projects_query_flags]
    show g ∈ sortedDedup (pySum (projectIds.dedup.foldl
      (queryFlagsStep ttl now) (s, [])).2) ↔ _
    rw [hfold, List.nil_append, mem_sortedDedup, mem_pySum]
    constructor
    · rintro ⟨l, hl, hg⟩
      obtain ⟨q, hq, rfl⟩ := List.mem_map.mp hl
      exact ⟨q, List.mem_dedup.mp hq, (mem_readLiveMembers _ _ _ _ _).mp hg⟩
    · rintro ⟨q, hq, hlive⟩
      exact ⟨readLiveMembers ttl s q now,
        List.mem_map.mpr ⟨q, List.mem_dedup.mpr hq, rfl⟩,
        (mem_readLiveMembers _ _ _ _ _).mpr hlive⟩

theorem query_flags_spec_witness :
    ((0 : Nat) < 10 ∧ (3 : ℚ) < 0 + ((10 : Nat) : ℚ)
      ∧ (get_projects_query_flags 10 [7] 3
          (set_project_exclude_groups 10 7 [1, 2] 0 emptyRedis)).1 =
        (false, [1, 2]))
    ∧ ((0 : Nat) < 10 ∧ (0 : ℚ) + ((10 : Nat) : ℚ) ≤ 12
      ∧ (get_projects_query_flags 10 [7] 12
          (set_project_exclude_groups 10 7 [1, 2] 0 emptyRedis)).1 =
        (false, []))
    ∧ ((get_projects_query_flags 10 [7] 3 emptyRedis).1.1 = true ↔
        ∃ p ∈ [7], projectNeedsFinal emptyRedis p 3 = true) :=
  ⟨⟨by norm_num, by norm_num,
      query_flags_spec.2.1 10 7 0 3 (by norm_num) (by norm_num)⟩,
    ⟨by norm_num, by norm_num,
      query_flags_spec.2.2 10 7 0 12 (by norm_num) (by norm_num)⟩,
    (query_flags_spec.1 10 [7] 3 emptyRedis).1⟩

/-! ## Replacer worker (`snuba/replacer.py`, `ReplacerWorker`) -/

/-- The consistency-update descriptor `query_time_flags == (type,
project_id, [...data...])`, whose type field is one of the two sentinels
`NEEDS_FINAL` and `EXCLUDE_GROUPS`. -/
inductive QueryTimeFlags where
  | needsFinal (projectId : Nat)
  | excludeGroups (projectId : Nat) (groupIds : List Nat)
  deriving DecidableEq

/-- One unit of work handed back by the domain replacement processor:
`(count_query_template, insert_query_template, query_args,
query_time_flags)`. -/
structure ReplacementBatchItem where
  countQueryTemplate : String
  insertQueryTemplate : String
  queryArgs : List (String × String)
  queryTimeFlags : QueryTimeFlags
  deriving DecidableEq

/-- The externally observable operations of one batch flush, in execution
order. -/
inductive ReplacerEffect where
  | countQuery (template : String) (args : List (String × String))
  | setNeedsFinal (projectId : Nat)
  | setExcludeGroups (projectId : Nat) (groupIds : List Nat)
  | insertQuery (template : String) (args : List (String × String))
  deriving DecidableEq

def ReplacerEffect.isInsertQuery : ReplacerEffect → Bool
  | .insertQuery _ _ => true
  | _ => false

def ReplacerEffect.isConsistencyUpdate : ReplacerEffect → Bool
  | .setNeedsFinal _ => true
  | .setExcludeGroups _ _ => true
  | _ => false

/-- `ReplacerWorker.flush_batch` (replacer.py lines 121-144) as the sequence
of effects it performs.  `countOracle` abstracts the scalar read
`clickhouse.execute_robust(count_query_template % query_args)[0][0]` of the
external column store; `tableName` is `self.dataset.SCHEMA.QUERY_TABLE`,
written into `query_args` before rendering, so both query effects carry the
updated args.  The two consistency updates are `set_project_needs_final`
and `set_project_exclude_groups` on the state store. -/
def flush_batch (countOracle : String → List (String × String) → Nat)
    (tableName : String) : List ReplacementBatchItem → List ReplacerEffect
  | [] => []
  | u :: rest =>
      let args := aset u.queryArgs "table_name" tableName
      if countOracle u.countQueryTemplate args = 0 then
        .countQuery u.countQueryTemplate args ::
          flush_batch countOracle tableName rest
      else
        .countQuery u.countQueryTemplate args ::
        (match u.queryTimeFlags with
          | .needsFinal projectId => ReplacerEffect.setNeedsFinal projectId
          | .excludeGroups projectId groupIds =>
              ReplacerEffect.setExcludeGroups projectId groupIds) ::
        .insertQuery u.insertQueryTemplate args ::
          flush_batch countOracle tableName rest

/-- **C4.**  During a batch flush units are processed strictly sequentially
in the order received; a unit whose count query returns 0 is skipped
entirely (no insert query, no consistency-state update); otherwise the
consistency update named by its descriptor is applied to the state store
and then the insert query is executed. -/
theorem flush_batch_spec
    (countOracle : String → List (String × String) → Nat)
    (tableName : String) :
    (∀ us vs : List ReplacementBatchItem,
      flush_batch countOracle tableName (us ++ vs) =
        flush_batch countOracle tableName us ++
        flush_batch countOracle tableName vs)
    ∧ (∀ u : ReplacementBatchItem,
      countOracle u.countQueryTemplate
        (aset u.queryArgs "table_name" tableName) = 0 →
      flush_batch countOracle tableName [u] =
        [.countQuery u.countQueryTemplate
          (aset u.queryArgs "table_name" tableName)]
      ∧ ∀ a ∈ flush_batch countOracle tableName [u],
          a.isInsertQuery = false ∧ a.isConsistencyUpdate = false)
    ∧ (∀ (u : ReplacementBatchItem) (pid : Nat),
      u.queryTimeFlags = .needsFinal pid →
      countOracle u.countQueryTemplate
        (aset u.queryArgs "table_name" tableName) ≠ 0 →
      flush_batch countOracle tableName [u] =
        [.countQuery u.countQueryTemplate
          (aset u.queryArgs "table_name" tableName),
         .setNeedsFinal pid,
         .insertQuery u.insertQueryTemplate
          (aset u.queryArgs "table_name" tableName)])
    ∧ (∀ (u : ReplacementBatchItem) (pid : Nat) (gids : List Nat),
      u.queryTimeFlags = .excludeGroups pid gids →
      countOracle u.countQueryTemplate
        (aset u.queryArgs "table_name" tableName) ≠ 0 →
      flush_batch countOracle tableName [u] =
        [.countQuery u.countQueryTemplate
          (aset u.queryArgs "table_name" tableName),
         .setExcludeGroups pid gids,
         .insertQuery u.insertQueryTemplate
          (aset u.queryArgs "table_name" tableName)]) := by
  refine ⟨?_, ?_, ?_, ?_⟩
  · intro us vs
    induction us with
    | nil => simp [flush_batch]
    | cons u rest ih =>
        rw [List.cons_append, flush_batch, flush_batch]
        by_cases h : countOracle u.countQueryTemplate
            (aset u.queryArgs "table_name" tableName) = 0 <;>
          simp [h, ih]
  · intro u h
    constructor
    · rw [flush_batch, if_pos h, flush_batch]
    · intro a ha
      rw [flush_batch, if_pos h, flush_batch] at ha
      rcases List.mem_singleton.mp ha with rfl
      exact ⟨rfl, rfl⟩
  · intro u pid hflags h
    rw [flush_batch, if_neg h, hflags, flush_batch]
  · intro u pid gids hflags h
    rw [flush_batch, if_neg h, hflags, flush_batch]

theorem flush_batch_spec_witness :
    ((fun _ _ => 0 : String → List (String × String) → Nat) "c"
        (aset [] "table_name" "tbl") = 0
      ∧ flush_batch (fun _ _ => 0) "tbl"
          [⟨"c", "i", [], .needsFinal 1⟩] =
        [.countQuery "c" (aset [] "table_name" "tbl")])
    ∧ ((fun _ _ => 5 : String → List (String × String) → Nat) "c"
        (aset [] "table_name" "tbl") ≠ 0
      ∧ flush_batch (fun _ _ => 5) "tbl"
          [⟨"c", "i", [], .excludeGroups 1 [2, 3]⟩] =
        [.countQuery "c" (aset [] "table_name" "tbl"),
         .setExcludeGroups 1 [2, 3],
         .insertQuery "i" (aset [] "table_name" "tbl")]) :=
  ⟨⟨rfl, ((flush_batch_spec (fun _ _ => 0) "tbl").2.1
      ⟨"c", "i", [], .needsFinal 1⟩ rfl).1⟩,
   ⟨by decide, (flush_batch_spec (fun _ _ => 5) "tbl").2.2.2
      ⟨"c", "i", [], .excludeGroups 1 [2, 3]⟩ 1 [2, 3] rfl (by decide)⟩⟩

/-! ## Message classification (`ReplacerWorker.process_message`) -/

/-- `InvalidMessageType` / `InvalidMessageVersion` from `snuba.processor`. -/
inductive ProcessMessageError where
  | invalidMessageType
  | invalidMessageVersion
  deriving DecidableEq

/-- A decoded replacement message: the wire format is the 3-element JSON
array `[version, type, payload]`. -/
structure ReplacementMessage (Payload : Type) where
  version : Int
  messageType : String
  payload : Payload

/-- The four `start_*` markers, in the order checked (replacer.py line 112). -/
def START_TYPES : List String :=
  ["start_delete_groups", "start_merge", "start_unmerge", "start_delete_tag"]

/-- The four `end_*` markers, in the order checked (replacer.py line 114). -/
def END_TYPES : List String :=
  ["end_merge", "end_delete_tag", "end_unmerge", "end_delete_groups"]

/-- `ReplacerWorker.process_message` (replacer.py lines 103-119).
`processReplacement` abstracts the external domain processor
`self.dataset.PROCESSOR.process_replacement`, `Work` its unit-of-work
result; `none` is the Python `return None` (no unit of work). -/
def process_message {Payload Work : Type}
    (processReplacement : String → Payload → Work)
    (m : ReplacementMessage Payload) :
    Except ProcessMessageError (Option Work) :=
  if m.version = 2 then
    if m.messageType ∈ START_TYPES then
      .ok none
    else if m.messageType ∈ END_TYPES then
      .ok (some (processReplacement m.messageType m.payload))
    else
      .error .invalidMessageType
  else
    .error .invalidMessageVersion

/-- **C5.**  `processMessage` raises a malformed-message error iff the
version differs from 2 or, for version 2, the type is not one of the eight
recognized start/end markers; the four `start_*` types return no unit of
work and the four `end_*` types are delegated to the domain replacement
processor. -/
theorem process_message_spec {Payload Work : Type}
    (processReplacement : String → Payload → Work)
    (m : ReplacementMessage Payload) :
    ((∃ e, process_message processReplacement m = .error e) ↔
      (m.version ≠ 2 ∨
        (m.messageType ∉ START_TYPES ∧ m.messageType ∉ END_TYPES)))
    ∧ (m.version = 2 → m.messageType ∈ START_TYPES →
        process_message processReplacement m = .ok none)
    ∧ (m.version = 2 → m.messageType ∈ END_TYPES →
        process_message processReplacement m =
          .ok (some (processReplacement m.messageType m.payload)))
    ∧ START_TYPES.length + END_TYPES.length = 8 := by
  have hdisj : m.messageType ∈ START_TYPES → m.messageType ∉ END_TYPES := by
    intro hs he
    simp only [START_TYPES, List.mem_cons, List.not_mem_nil, or_false] at hs
    rcases hs with h | h | h | h <;> rw [h] at he <;>
      exact absurd he (by decide)
  refine ⟨?_, ?_, ?_, rfl⟩
  · by_cases hv : m.version = 2
    · by_cases hs : m.messageType ∈ START_TYPES
      · simp [process_message, hv, hs]
      · by_cases he : m.messageType ∈ END_TYPES
        · simp [process_message, hv, hs, he]
        · simp [process_message, hv, hs, he]
    · simp [process_message, hv]
  · intro hv hs
    simp [process_message, hv, hs]
  · intro hv he
    simp [process_message, hv, hdisj, he]
    intro hs
    exact absurd he (hdisj hs)

theorem process_message_spec_witness :
    ((2 : Int) = 2 ∧ "start_merge" ∈ START_TYPES
      ∧ process_message (fun t (_ : Unit) => t)
          ⟨2, "start_merge", ()⟩ = .ok none)
    ∧ ((2 : Int) = 2 ∧ "end_merge" ∈ END_TYPES
      ∧ process_message (fun t (_ : Unit) => t)
          ⟨2, "end_merge", ()⟩ = .ok (some "end_merge"))
    ∧ ((∃ e, process_message (fun t (_ : Unit) => t)
          ⟨1, "end_merge", ()⟩ = .error e) ↔
        ((1 : Int) ≠ 2 ∨ ("end_merge" ∉ START_TYPES ∧ "end_merge" ∉ END_TYPES))) :=
  ⟨⟨rfl, by decide,
      (process_message_spec (fun t (_ : Unit) => t) ⟨2, "start_merge", ()⟩).2.1
        rfl (by decide)⟩,
   ⟨rfl, by decide,
      (process_message_spec (fun t (_ : Unit) => t) ⟨2, "end_merge", ()⟩).2.2.1
        rfl (by decide)⟩,
   (process_message_spec (fun t (_ : Unit) => t) ⟨1, "end_merge", ()⟩).1⟩

/-! ## Sampling-rate processor
(`snuba/query/processors/sampling_rate.py`)

`Query`, `RequestSettings` and `SamplingMode` live outside `src/`; the
slices the processor touches are modelled from the spec: a query holds a
sample-rate setting and its bound data source (which may not support
sampling); the request settings carry a sampling mode — one deprecated-auto
mode among others — and a turbo flag.  Sample rates are Python floats,
modelled as rationals; `TURBO_SAMPLE_RATE` is the configured value 0.1. -/

inductive SamplingMode where
  | autoDeprecated
  | otherMode (name : String)
  deriving DecidableEq

structure SnubaDataSource where
  supportsSample : Bool
  deriving DecidableEq

structure SnubaQuery where
  dataSource : SnubaDataSource
  sample : Option ℚ
  deriving DecidableEq

structure SnubaRequestSettings where
  samplingMode : SamplingMode
  turbo : Bool
  deriving DecidableEq

def TURBO_SAMPLE_RATE : ℚ := 1 / 10

/-- Python truthiness of `query.get_sample()`: both `None` and `0.0` are
falsy (`if query.get_sample():`). -/
def sampleTruthy : Option ℚ → Bool
  | none => false
  | some s => decide (s ≠ 0)

/-- `SamplingRateProcessor.process_query` (sampling_rate.py lines 18-27):
clear the sample when the data source does not support sampling; then,
under `SamplingMode.AUTO_DEPRECATED` only, return if a (truthy) sample is
set, else apply the turbo sample rate when the request's turbo flag is on.
No other mode is handled yet. -/
def SamplingRateProcessor.process_query (query : SnubaQuery)
    (request_settings : SnubaRequestSettings) : SnubaQuery :=
  let q1 := if ! query.dataSource.supportsSample then
      { query with sample := none }
    else query
  if request_settings.samplingMode = .autoDeprecated then
    if sampleTruthy q1.sample then q1
    else if request_settings.turbo then
      { q1 with sample := some TURBO_SAMPLE_RATE }
    else q1
  else q1

/-- A sample rate of `0.0` *is* set on the query, yet under the
deprecated-auto mode with turbo on the processor overwrites it with the
turbo rate (`if query.get_sample():` is falsy at `0.0`), so "a sample rate
already set on the query is left unchanged" fails. -/
theorem sampling_rate_claim_false :
    SamplingRateProcessor.process_query ⟨⟨true⟩, some 0⟩
        ⟨.autoDeprecated, true⟩ =
      ⟨⟨true⟩, some TURBO_SAMPLE_RATE⟩
    ∧ some (0 : ℚ) ≠ some TURBO_SAMPLE_RATE :=
  ⟨rfl, by norm_num [TURBO_SAMPLE_RATE]⟩

/-- **C9 (amended).**  After the sampling-rate processor runs: if the
query's data source does not support sampling, the sample setting is first
cleared (and is `none` afterwards unless the deprecated-auto turbo branch
re-sets it); under the one deprecated-auto sampling mode, a *truthy*
(non-null, nonzero) sample rate already set on the query is left unchanged,
and only when no truthy sample is set and the request's turbo flag is on is
the configured turbo sample rate applied; under every other sampling mode
the sample setting is not modified by the mode branch. -/
theorem sampling_rate_characterization :
    (∀ (q : SnubaQuery) (rs : SnubaRequestSettings),
      q.dataSource.supportsSample = false →
      (SamplingRateProcessor.process_query q rs).sample =
        if rs.samplingMode = .autoDeprecated ∧ rs.turbo = true then
          some TURBO_SAMPLE_RATE
        else none)
    ∧ (∀ (q : SnubaQuery) (rs : SnubaRequestSettings),
      q.dataSource.supportsSample = true →
      rs.samplingMode = .autoDeprecated →
      sampleTruthy q.sample = true →
      SamplingRateProcessor.process_query q rs = q)
    ∧ (∀ (q : SnubaQuery) (rs : SnubaRequestSettings),
      q.dataSource.supportsSample = true →
      rs.samplingMode = .autoDeprecated →
      sampleTruthy q.sample = false →
      SamplingRateProcessor.process_query q rs =
        (if rs.turbo then { q with sample := some TURBO_SAMPLE_RATE } else q))
    ∧ (∀ (q : SnubaQuery) (rs : SnubaRequestSettings),
      q.dataSource.supportsSample = true →
      rs.samplingMode ≠ .autoDeprecated →
      SamplingRateProcessor.process_query q rs = q) := by
  refine ⟨?_, ?_, ?_, ?_⟩
  · intro q rs hsup
    rw [SamplingRateProcessor.process_query]
    simp only [hsup, Bool.not_false, if_true]
    by_cases hm : rs.samplingMode = .autoDeprecated
    · simp only [hm, if_true, sampleTruthy, Bool.false_eq_true, if_false]
      by_cases ht : rs.turbo <;> simp [ht]
    · simp [hm]
  · intro q rs hsup hm htruthy
    rw [SamplingRateProcessor.process_query]
    simp [hsup, hm, htruthy]
  · intro q rs hsup hm htruthy
    rw [SamplingRateProcessor.process_query]
    by_cases ht : rs.turbo <;> simp [hsup, hm, htruthy, ht]
  · intro q rs hsup hm
    rw [SamplingRateProcessor.process_query]
    simp [hsup, hm]

theorem sampling_rate_characterization_witness :
    ((⟨⟨false⟩, some (1 / 2)⟩ : SnubaQuery).dataSource.supportsSample = false
      ∧ (SamplingRateProcessor.process_query ⟨⟨false⟩, some (1 / 2)⟩
          ⟨.otherMode "fixed", true⟩).sample =
        (if (SamplingMode.otherMode "fixed") = .autoDeprecated ∧ True then
          some TURBO_SAMPLE_RATE else none))
    ∧ ((⟨⟨true⟩, some (1 / 2)⟩ : SnubaQuery).dataSource.supportsSample = true
      ∧ sampleTruthy (some (1 / 2)) = true
      ∧ SamplingRateProcessor.process_query ⟨⟨true⟩, some (1 / 2)⟩
          ⟨.autoDeprecated, true⟩ = ⟨⟨true⟩, some (1 / 2)⟩) :=
  ⟨⟨rfl, by
      have := sampling_rate_characterization.1 ⟨⟨false⟩, some (1 / 2)⟩
        ⟨.otherMode "fixed", true⟩ rfl
      simpa using this⟩,
   ⟨rfl, by norm_num [sampleTruthy],
      sampling_rate_characterization.2.1 ⟨⟨true⟩, some (1 / 2)⟩
        ⟨.autoDeprecated, true⟩ rfl rfl (by norm_num [sampleTruthy])⟩⟩

/-! ## Outcomes storage selector (`snuba/datasets/outcomes.py`) -/

/-- `OutcomesQueryStorageSelector.__init__` (outcomes.py lines 67-71):
holds the raw table storage and the materialized-view storage.  The storage
type, the query type and the request-settings type are irrelevant to the
selector and stay abstract. -/
structure OutcomesQueryStorageSelector (Storage : Type) where
  raw_table : Storage
  materialized_view : Storage

/-- `OutcomesQueryStorageSelector.select_storage` (outcomes.py lines
73-81): "always queries the mat view". -/
def OutcomesQueryStorageSelector.select_storage {Storage Query Settings : Type}
    (sel : OutcomesQueryStorageSelector Storage) (_query : Query)
    (_request_settings : Settings) : Storage :=
  sel.materialized_view

/-- **C10.**  `select_storage` returns the materialized-view storage the
selector was constructed with, for every query and every request settings;
the result is independent of both arguments, and the raw-table storage is
never selected (whenever it differs from the materialized view). -/
theorem outcomes_select_storage_constant {Storage Query Settings : Type}
    (sel : OutcomesQueryStorageSelector Storage) (q q' : Query)
    (rs rs' : Settings) :
    sel.select_storage q rs = sel.materialized_view
    ∧ sel.select_storage q rs = sel.select_storage q' rs'
    ∧ (sel.raw_table ≠ sel.materialized_view →
        sel.select_storage q rs ≠ sel.raw_table) :=
  ⟨rfl, rfl, fun h hc => h (hc.symm.trans rfl)⟩

theorem outcomes_select_storage_constant_witness :
    ((⟨"raw", "mat"⟩ : OutcomesQueryStorageSelector String).raw_table ≠
        (⟨"raw", "mat"⟩ : OutcomesQueryStorageSelector String).materialized_view)
    ∧ (⟨"raw", "mat"⟩ : OutcomesQueryStorageSelector String).select_storage
        (0 : Nat) (1 : Nat) = "mat"
    ∧ (⟨"raw", "mat"⟩ : OutcomesQueryStorageSelector String).select_storage
        (0 : Nat) (1 : Nat) ≠ "raw" :=
  ⟨by decide,
   (outcomes_select_storage_constant ⟨"raw", "mat"⟩ 0 0 1 1).1,
   (outcomes_select_storage_constant ⟨"raw", "mat"⟩ 0 0 1 1).2.2 (by decide)⟩

/-! ## Discover storage selection

The discover selector's code is not under `src/`; it is modelled from the
spec (§4.3): selection is a pure function of the query's structure —
referenced column names across conditions, selected columns and aggregation
arguments — preferring the schema a name belongs to exclusively, with the
literal `type = "transaction"` / `type != "transaction"` conditions deciding
directly (§8 scenarios), and every tie or ambiguity falling back to the
default (events) storage, never an error.  `DiscoverStorage.events` is the
default storage (read table `test_sentry_local` in the tests);
`DiscoverStorage.transactions` reads `test_transactions_local`. -/

inductive DiscoverStorage where
  | events
  | transactions
  deriving DecidableEq

/-- The slice of a legacy query body the selector inspects
(`tests/datasets/test_discover.py` lines 20-33): conditions `[column, op,
literal]`, selected columns, and aggregations `[function, column, alias]`. -/
structure DiscoverQueryBody where
  conditions : List (String × String × ScalarValue)
  selected_columns : List String
  aggregations : List (String × String × String)
  deriving DecidableEq

/-- Modelled from the spec: the column names referenced across conditions,
selected columns, and aggregation arguments. -/
def referencedColumns (q : DiscoverQueryBody) : List String :=
  q.conditions.map (·.1) ++ q.selected_columns ++ q.aggregations.map (·.2.1)

/-- Modelled from the spec: the discover storage selector. -/
def selectDiscoverStorage (q : DiscoverQueryBody) : DiscoverStorage :=
  if q.conditions.contains ("type", "=", .str "transaction") then
    .transactions
  else if q.conditions.contains ("type", "!=", .str "transaction") then
    .events
  else
    let cols := referencedColumns q
    let hasTransactionsOnly := cols.any (TRANSACTIONS_COLUMN_NAMES.contains ·)
    let hasEventsOnly := cols.any (EVENTS_COLUMN_NAMES.contains ·)
    if hasTransactionsOnly && ! hasEventsOnly then .transactions else .events

/-- **C8.**  The discover storage selector, a pure function of the query's
structure, selects: for condition `type = "transaction"`, condition
`duration = 0`, selected column `trace_id`, or aggregation
`max(duration)`, the transactions storage; for condition
`type != "transaction"`, no conditions, selected column `group_id`, or the
ambiguous selected-column set `{group_id, trace_id}`, the default (events)
storage; ambiguity never produces an error (every query selects one of the
two storages). -/
theorem discover_storage_selection :
    selectDiscoverStorage ⟨[("type", "=", .str "transaction")], [], []⟩ =
      .transactions
    ∧ selectDiscoverStorage ⟨[("type", "!=", .str "transaction")], [], []⟩ =
      .events
    ∧ selectDiscoverStorage ⟨[], [], []⟩ = .events
    ∧ selectDiscoverStorage ⟨[("duration", "=", .int 0)], [], []⟩ =
      .transactions
    ∧ selectDiscoverStorage ⟨[], ["group_id"], []⟩ = .events
    ∧ selectDiscoverStorage ⟨[], ["trace_id"], []⟩ = .transactions
    ∧ selectDiscoverStorage ⟨[], ["group_id", "trace_id"], []⟩ = .events
    ∧ selectDiscoverStorage ⟨[], [], [("max", "duration", "max_duration")]⟩ =
      .transactions
    ∧ ∀ q : DiscoverQueryBody,
        selectDiscoverStorage q = .events ∨
        selectDiscoverStorage q = .transactions := by
  refine ⟨rfl, rfl, rfl, rfl, rfl, rfl, rfl, rfl, ?_⟩
  intro q
  rw [selectDiscoverStorage]
  split
  · exact Or.inr rfl
  · split
    · exact Or.inl rfl
    · dsimp only
      split
      · exact Or.inr rfl
      · exact Or.inl rfl

end Snuba
